import Mathlib

/-!
# Verification of the `atc2json` ATC container parser

A shallow embedding of `atc2json/atc2json.go` (package `atc2json`): the ATC
binary container parser `Parse`, its checksum validator, and the field-level
shape of the JSON serialization performed by `Convert`.

Bytes are modelled as `Nat` values in `0..255`; the input buffer is a
`List Nat`.  The `bytes.Reader` is modelled as a cursor `pos` into that list.
Machine integers are modelled as `Nat`/`Int` with explicit `% 2^w` wherever Go
truncates.  Go run-time faults (nil-pointer dereference, slice bounds) are a
distinguished `ParseResult.panic` outcome, kept apart from `error` returns.
-/

namespace Atc2Json

/-- The 32-bit modulus. -/
def mod32 : Nat := 4294967296

/-- `var AtcFileSignature = [8]byte{'A','L','I','V','E',0,0,0}`. -/
def AtcFileSignature : List Nat := [65, 76, 73, 86, 69, 0, 0, 0]

/-- `const ChecksumLength = 4`. -/
def ChecksumLength : Nat := 4

/-- The span `data[start : start+len]` read as Go does (`reader` reads and
checksum slices are all of this form). -/
def sliceBytes (data : List Nat) (start len : Nat) : List Nat :=
  (data.drop start).take len

/-- Little-endian decoding of a 2-byte slice (Go `binary.LittleEndian` for
`uint16`). -/
def le16 (b : List Nat) : Nat :=
  match b with
  | [b0, b1] => b0 + 256 * b1
  | _ => 0

/-- Little-endian decoding of a 4-byte slice (Go `binary.LittleEndian` for
`uint32`). -/
def le32 (b : List Nat) : Nat :=
  match b with
  | [b0, b1, b2, b3] => b0 + 256 * b1 + 65536 * b2 + 16777216 * b3
  | _ => 0

/-- A little-endian pair of bytes read as a signed 16-bit sample
(`[]int16` decoding in the `ecg` branches). -/
def int16OfLe (lo hi : Nat) : Int :=
  let v := lo + 256 * hi
  if v < 32768 then (v : Int) else (v : Int) - 65536

/-- Decode a byte list as consecutive little-endian `int16` values
(`binary.Read` into an `[]int16`). -/
def decodeInt16s : List Nat → List Int
  | lo :: hi :: rest => int16OfLe lo hi :: decodeInt16s rest
  | _ => []

/-- `calcChecksum`: Go folds the bytes into an `int32` accumulator with
`sum += int32(b)`; since `b` is a `byte` (`uint8`), `int32(b)` zero-extends,
so each byte contributes its unsigned value, the `int32` addition wraps in
two's complement, and the final `uint32(sum)` reinterpretation makes the whole
computation addition mod `2^32` of the unsigned byte values. -/
def calcChecksum (data : List Nat) : Nat :=
  data.foldl (fun sum b => (sum + b) % mod32) 0

/-- Result of `verifyChecksum`. `ok` carries the reader position after the
4-byte stored-checksum read; `panicSlice` is the Go run-time panic raised by
`data[blockStart : blockStart+8+blockLen]` when the upper bound exceeds
`len(data)`. -/
inductive VerifyResult where
  | ok (newPos : Nat)
  | mismatch (stored calculated : Nat)
  | panicSlice
deriving DecidableEq

/-- `verifyChecksum(data, blockStart, blockLen, reader)`: reads the next 4
bytes as the stored little-endian checksum (the `binary.Read` error is
ignored, so on a short read the stored value stays `0` and the reader is
drained), then recomputes `calcChecksum` over
`data[blockStart : blockStart+8+blockLen]` and compares. -/
def verifyChecksum (data : List Nat) (blockStart blockLen pos : Nat) : VerifyResult :=
  let stored := if 4 ≤ data.length - pos then le32 (sliceBytes data pos 4) else 0
  let pos' := if 4 ≤ data.length - pos then pos + 4 else data.length
  if data.length < blockStart + 8 + blockLen then .panicSlice
  else
    let calculated := calcChecksum (sliceBytes data blockStart (8 + blockLen))
    if stored ≠ calculated then .mismatch stored calculated else .ok pos'

/-- `FmtBlock`: 1-byte format, LE `uint16` frequency, LE `uint16` resolution,
1-byte flags, LE `uint16` reserved. -/
structure FmtBlock where
  format : Nat
  frequency : Nat
  resolution : Nat
  flags : Nat
  reserved : Nat
deriving DecidableEq

/-- Decode the 8-byte `fmt ` payload (field layout of `FmtBlock` in source
order, little-endian). Only ever applied to slices of length 8. -/
def decodeFmt (b : List Nat) : FmtBlock :=
  match b with
  | [b0, b1, b2, b3, b4, b5, b6, b7] =>
    { format := b0, frequency := b1 + 256 * b2, resolution := b3 + 256 * b4
      flags := b5, reserved := b6 + 256 * b7 }
  | _ => { format := 0, frequency := 0, resolution := 0, flags := 0, reserved := 0 }

/-- `InfoBlock`: seven fixed-width byte fields, 264 bytes in total
(32+40+44+32+32+32+52). -/
structure InfoBlock where
  dateRecorded : List Nat
  recordingUUID : List Nat
  phoneUDID : List Nat
  phoneModel : List Nat
  recorderSoftware : List Nat
  recorderHardware : List Nat
  location : List Nat
deriving DecidableEq

/-- Decode the 264-byte `info` payload into its seven fixed-width fields. -/
def decodeInfo (b : List Nat) : InfoBlock :=
  { dateRecorded := b.take 32
    recordingUUID := (b.drop 32).take 40
    phoneUDID := (b.drop 72).take 44
    phoneModel := (b.drop 116).take 32
    recorderSoftware := (b.drop 148).take 32
    recorderHardware := (b.drop 180).take 32
    location := (b.drop 212).take 52 }

/-- The `Gain` field: Go computes `1e6 / float32(resolution)`.  Division of
the positive constant by zero yields IEEE `+Inf`, modelled as `inf`; for a
nonzero resolution the quotient is modelled as the exact rational value
(the `float32` rounding of that quotient is abstracted away — no claim here
depends on the rounded digits). -/
inductive GainVal where
  | inf
  | finite (q : ℚ)
deriving DecidableEq

/-- `result.Gain = 1e6 / float32(fmtBlock.Resolution)`. -/
def mkGain (resolution : Nat) : GainVal :=
  if resolution = 0 then .inf else .finite ((1000000 : ℚ) / (resolution : ℚ))

/-- `EcgSamples`: six optional lead arrays; `none` is a Go nil slice. -/
structure EcgSamples where
  leadI : Option (List Int)
  leadII : Option (List Int)
  leadIII : Option (List Int)
  aVR : Option (List Int)
  aVL : Option (List Int)
  aVF : Option (List Int)
deriving DecidableEq

/-- `EcgData`: the decoded document.  `frequency` stores
`float32(fmtBlock.Frequency)`, which is exact for every `uint16`, so a `Nat`
suffices. -/
structure EcgData where
  frequency : Nat
  mainsFrequency : Nat
  gain : GainVal
  samples : EcgSamples
  info : Option InfoBlock
deriving DecidableEq

/-- Errors returned (as Go `error` values) by `Parse`, by construction site. -/
inductive ParseError where
  | wrongSignature
  | readBlockHeader
  | readBuffer
  | checksumMismatch (stored calculated : Nat)
  | readInput
deriving DecidableEq

/-- Go run-time faults `Parse` can hit: dereferencing the nil `fmtBlock`
after a loop that never saw a `fmt ` block, and the checksum slice running
past the end of the buffer. -/
inductive PanicKind where
  | nilDeref
  | sliceBounds
deriving DecidableEq

/-- Outcome of `Parse`: a document, an `error` return, or a run-time panic.
`fuelExhausted` is an artifact of the fuel-based loop model and is never
reached with the fuel `Parse` supplies (each loop iteration consumes at least
8 bytes of the buffer). -/
inductive ParseResult where
  | ok (d : EcgData)
  | error (e : ParseError)
  | panic (p : PanicKind)
  | fuelExhausted
deriving DecidableEq

/-- The parse loop's working variables (`leadISamples` … `aVFSamples`,
`fmtBlock`, `infoBlock`). -/
structure LoopState where
  leadI : Option (List Int) := none
  leadII : Option (List Int) := none
  leadIII : Option (List Int) := none
  aVR : Option (List Int) := none
  aVL : Option (List Int) := none
  aVF : Option (List Int) := none
  fmtB : Option FmtBlock := none
  infoB : Option InfoBlock := none
deriving DecidableEq

/-- The block tags of the `switch` (each with its intended trailing space). -/
def tagFmt : List Nat := [102, 109, 116, 32]

/-- `"info"`. -/
def tagInfo : List Nat := [105, 110, 102, 111]

/-- `"ecg "`. -/
def tagEcg : List Nat := [101, 99, 103, 32]

/-- `"ecg2"`. -/
def tagEcg2 : List Nat := [101, 99, 103, 50]

/-- `"ecg3"`. -/
def tagEcg3 : List Nat := [101, 99, 103, 51]

/-- `"ecg4"`. -/
def tagEcg4 : List Nat := [101, 99, 103, 52]

/-- `"ecg5"`. -/
def tagEcg5 : List Nat := [101, 99, 103, 53]

/-- `"ecg6"`. -/
def tagEcg6 : List Nat := [101, 99, 103, 54]

/-- Which of the six lead variables a sample tag assigns to.  The six `case`
arms of the Go `switch` are identical up to the target variable, so they are
factored through this map. -/
def leadFor (tag : List Nat) : Option (Fin 6) :=
  if tag = tagEcg then some 0
  else if tag = tagEcg2 then some 1
  else if tag = tagEcg3 then some 2
  else if tag = tagEcg4 then some 3
  else if tag = tagEcg5 then some 4
  else if tag = tagEcg6 then some 5
  else none

/-- Assign a decoded sample array to the lead variable selected by the tag. -/
def setLead (st : LoopState) (i : Fin 6) (v : List Int) : LoopState :=
  match i with
  | 0 => { st with leadI := some v }
  | 1 => { st with leadII := some v }
  | 2 => { st with leadIII := some v }
  | 3 => { st with aVR := some v }
  | 4 => { st with aVL := some v }
  | 5 => { st with aVF := some v }

/-- The unknown-tag `default` arm: `reader.Read(discardBuf)` on a
`bytes.Reader` returns `io.EOF` (an error here) only when the cursor is
already at the end; otherwise it reads `min(discard, remaining)` bytes and
reports no error even when that is short of `discard`. Returns the new cursor,
or `none` for the error return. -/
def skipUnknown (dataLen pos discard : Nat) : Option Nat :=
  if dataLen ≤ pos then none
  else some (min (pos + discard) dataLen)

/-- Post-loop assembly (`result := &EcgData{}` onward).  Go first evaluates
`fmtBlock.Resolution`, so a loop that never decoded a `fmt ` block
dereferences a nil pointer: modelled as `panic .nilDeref`. -/
def finishParse (st : LoopState) : ParseResult :=
  match st.fmtB with
  | none => .panic .nilDeref
  | some f =>
    .ok { frequency := f.frequency
          mainsFrequency := if f.flags.land 2 ≠ 0 then 60 else 50
          gain := mkGain f.resolution
          samples := { leadI := st.leadI, leadII := st.leadII, leadIII := st.leadIII
                       aVR := st.aVR, aVL := st.aVL, aVF := st.aVF }
          info := st.infoB }

/-- The `for` loop of `Parse`, one fuel unit per iteration.  Reading the
8-byte block header at exact end-of-input is `io.EOF` (break); a partial read
is `ErrUnexpectedEOF` (the `"Error reading file"` return).  Each decoded
known block re-verifies its checksum against the original buffer from
`blockStart`; unknown tags are skipped via `skipUnknown`. -/
def parseLoop (data : List Nat) : Nat → Nat → LoopState → ParseResult
  | 0, _, _ => .fuelExhausted
  | fuel + 1, pos, st =>
    if data.length - pos = 0 then finishParse st
    else if data.length - pos < 8 then .error .readBlockHeader
    else
      let tag := sliceBytes data pos 4
      let blockLen := le32 (sliceBytes data (pos + 4) 4)
      if tag = tagFmt then
        if data.length - (pos + 8) < 8 then .error .readBuffer
        else
          let f := decodeFmt (sliceBytes data (pos + 8) 8)
          match verifyChecksum data pos blockLen (pos + 8 + 8) with
          | .panicSlice => .panic .sliceBounds
          | .mismatch stored calculated => .error (.checksumMismatch stored calculated)
          | .ok pos' => parseLoop data fuel pos' { st with fmtB := some f }
      else if tag = tagInfo then
        if data.length - (pos + 8) < 264 then .error .readBuffer
        else
          let ib := decodeInfo (sliceBytes data (pos + 8) 264)
          match verifyChecksum data pos blockLen (pos + 8 + 264) with
          | .panicSlice => .panic .sliceBounds
          | .mismatch stored calculated => .error (.checksumMismatch stored calculated)
          | .ok pos' => parseLoop data fuel pos' { st with infoB := some ib }
      else
        match leadFor tag with
        | some lead =>
          let count := blockLen / 2
          if data.length - (pos + 8) < 2 * count then .error .readBuffer
          else
            let samples := decodeInt16s (sliceBytes data (pos + 8) (2 * count))
            match verifyChecksum data pos blockLen (pos + 8 + 2 * count) with
            | .panicSlice => .panic .sliceBounds
            | .mismatch stored calculated => .error (.checksumMismatch stored calculated)
            | .ok pos' => parseLoop data fuel pos' (setLead st lead samples)
        | none =>
          match skipUnknown data.length (pos + 8) ((blockLen + ChecksumLength) % mod32) with
          | none => .error .readInput
          | some pos' => parseLoop data fuel pos' st

/-- The signature the header check sees: `binary.Read` of the 12-byte
`AtcFileHeader` fails on a buffer shorter than 12 bytes, its error is ignored,
and the header struct stays zero-valued. -/
def headerSignature (data : List Nat) : List Nat :=
  if data.length < 12 then List.replicate 8 0 else data.take 8

/-- `Parse(atcData)`.  After the signature check the block loop starts at
offset 12 with fuel `len+1`, which is ample: every iteration that loops again
has consumed at least the 8 header bytes of a block. -/
def Parse (data : List Nat) : ParseResult :=
  if headerSignature data ≠ AtcFileSignature then .error .wrongSignature
  else parseLoop data (data.length + 1) 12 {}

/-- `calcMillivolts` (exact-rational model of the `float32` division). -/
def calcMillivolts (data : List Int) (scale : ℚ) : List ℚ :=
  data.map (fun sample => (sample : ℚ) / scale)

/-! ## JSON serialization shape

`Convert` feeds the decoded document to `encoding/json`.  For the claim about
field presence only the *shape* of that output matters, so the marshaller is
modelled at the level of emitted object keys: for each key, whether it is
emitted and whether its value is JSON `null`.  Per the struct tags in the
source: `LeadII`..`AVF` carry `omitempty` — and `encoding/json` omits an
`omitempty` slice whenever it is *empty*, i.e. both when it is nil and when
it is a non-nil zero-length slice (the latter is reachable: a sample block
with declared length 0 yields `make([]int16, 0)`).  `LeadI` carries only a
name (a nil slice is emitted as `null`, an empty one as `[]`), and `Info`
has no tag at all (emitted under the Go field name `Info`, `null` when the
pointer is nil).  `frequency`, `mainsFrequency`, `gain` and `samples` are
always emitted. -/

/-- One `omitempty`-tagged lead field: the key is emitted exactly when the
slice is non-empty; a nil slice (`none`) and a non-nil empty slice
(`some []`) are both omitted, per `encoding/json`'s emptiness test
`len(v) == 0`. -/
def optLeadField (name : String) (o : Option (List Int)) : List (String × Bool) :=
  match o with
  | none => []
  | some [] => []
  | some (_ :: _) => [(name, false)]

/-- The keys of the `samples` JSON object, in struct order, each paired with
whether its value is `null`. -/
def ecgSamplesFields (s : EcgSamples) : List (String × Bool) :=
  [("leadI", s.leadI.isNone)]
    ++ optLeadField "leadII" s.leadII
    ++ optLeadField "leadIII" s.leadIII
    ++ optLeadField "aVR" s.aVR
    ++ optLeadField "aVL" s.aVL
    ++ optLeadField "aVF" s.aVF

/-- The keys of the top-level JSON object, in struct order, each paired with
whether its value is `null`. -/
def ecgDataFields (d : EcgData) : List (String × Bool) :=
  [("frequency", false), ("mainsFrequency", false), ("gain", false), ("samples", false),
   ("Info", d.info.isNone)]

/-- `Convert`: parse, then marshal — modelled down to the key/null shape of
the two JSON objects (top level, and the nested `samples`). `none` is
`Convert`'s error return. -/
def Convert (data : List Nat) : Option (List (String × Bool) × List (String × Bool)) :=
  match Parse data with
  | .ok d => some (ecgDataFields d, ecgSamplesFields d.samples)
  | _ => none

/-! ## Input construction

Encoders used to build concrete and parametric ATC files for the theorems.
These are test-input builders, not part of the embedded program. -/

/-- Little-endian encoding of a 16-bit value. -/
def encodeLe16 (v : Nat) : List Nat :=
  [v % 256, v / 256 % 256]

/-- Little-endian encoding of a 32-bit value. -/
def encodeLe32 (v : Nat) : List Nat :=
  [v % 256, v / 256 % 256, v / 65536 % 256, v / 16777216 % 256]

/-- Two's-complement little-endian encoding of a signed 16-bit sample. -/
def encodeInt16 (s : Int) : List Nat :=
  encodeLe16 (s % 65536).toNat

/-- The 12-byte file header: signature plus little-endian version. -/
def fileHeaderBytes (version : Nat) : List Nat :=
  AtcFileSignature ++ encodeLe32 version

/-- Append the correct trailing checksum to a block's header+payload bytes. -/
def withChecksum (blockBytes : List Nat) : List Nat :=
  blockBytes ++ encodeLe32 (calcChecksum blockBytes)

/-- The 8-byte `fmt ` payload for the given field values. -/
def fmtPayload (format freq res flags reserved : Nat) : List Nat :=
  [format % 256] ++ encodeLe16 freq ++ encodeLe16 res ++ [flags % 256] ++ encodeLe16 reserved

/-- A complete, correctly checksummed `fmt ` block (20 bytes). -/
def fmtChunk (format freq res flags reserved : Nat) : List Nat :=
  withChecksum (tagFmt ++ encodeLe32 8 ++ fmtPayload format freq res flags reserved)

/-- The sample bytes of an `ecg ` payload. -/
def sampleBytes (ss : List Int) : List Nat :=
  (ss.map encodeInt16).flatten

/-- A complete, correctly checksummed `ecg ` block holding `ss`. -/
def ecgChunk (ss : List Int) : List Nat :=
  withChecksum (tagEcg ++ encodeLe32 (2 * ss.length) ++ sampleBytes ss)

/-- A well-formed file: header, one `fmt ` block, one `ecg ` block. -/
def buildFile (version format freq res flags reserved : Nat) (ss : List Int) : List Nat :=
  fileHeaderBytes version ++ fmtChunk format freq res flags reserved ++ ecgChunk ss

/-- A file that is just the 12-byte header: the block loop terminates at once
without ever seeing a `fmt ` block. -/
def headerOnlyFile : List Nat :=
  fileHeaderBytes 0

/-- A file with a valid `fmt ` block: `Parse` succeeds with every lead and the
info block absent. -/
def fmtOnlyFile : List Nat :=
  fileHeaderBytes 0 ++ fmtChunk 0 300 500 0 0

/-- A file whose `ecg2` block declares the odd length 3.  `Parse` reads
`3/2 = 1` sample (bytes `156, 0`), then reads the 4 bytes starting one byte
early as the stored checksum (`[0,2,0,0]`, value `512`), which matches the
sum over the declared 11-byte span (`'e'+'c'+'g'+'2'+3+156+0 = 512`), so the
file is accepted. -/
def oddEcg2File : List Nat :=
  fileHeaderBytes 0 ++ fmtChunk 0 300 500 0 0
    ++ [101, 99, 103, 50, 3, 0, 0, 0, 156, 0, 0, 2, 0, 0]

/-- A file ending in an unknown-tag block (`"xxxx"`) that declares length 100
while only 2 payload bytes remain: the short `reader.Read` is not an error,
the cursor moves to the end, and the loop exits normally. -/
def shortSkipFile : List Nat :=
  fileHeaderBytes 0 ++ fmtChunk 0 300 500 0 0
    ++ [120, 120, 120, 120, 100, 0, 0, 0, 7, 7]

/-! ## The spec's signed-byte checksum

The specification describes the expected checksum as a sum of *signed* byte
values in a signed 32-bit accumulator.  That variant is modelled here, from
the spec's words, to compare against `calcChecksum` as translated from the
source. -/

/-- A byte reinterpreted as a signed 8-bit integer (two's complement). -/
def signedByte (b : Nat) : Int :=
  if b % 256 < 128 then ((b % 256 : Nat) : Int) else ((b % 256 : Nat) : Int) - 256

/-- Wrap an integer to the signed 32-bit two's-complement range. -/
def wrap32 (z : Int) : Int :=
  (z + 2147483648) % 4294967296 - 2147483648

/-- Modelled from the spec: "the 32-bit (mod 2^32) sum of the signed byte
values … using each byte reinterpreted as a signed 8-bit integer before
summation, accumulated in a signed 32-bit accumulator and finally
reinterpreted as unsigned". -/
def specCalcChecksum (data : List Nat) : Nat :=
  ((data.foldl (fun sum b => wrap32 (sum + signedByte b)) 0) % 4294967296).toNat

/-- A 13-byte buffer forming one `"ecg "` block of declared length 1 whose
payload is the single byte `0x80`, followed by the stored checksum `464`
(little-endian `[208,1,0,0]`): the unsigned byte sum of the 9-byte span. -/
def c1Block : List Nat :=
  [101, 99, 103, 32, 1, 0, 0, 0, 128, 208, 1, 0, 0]

end Atc2Json

/-! # Claim theorems -/

namespace Atc2Json

/-- Folding mod-`2^32` addition of the bytes equals the plain sum mod `2^32`. -/
theorem foldl_add_mod (l : List Nat) :
    ∀ a, l.foldl (fun sum b => (sum + b) % mod32) (a % mod32) = (a + l.sum) % mod32 := by
  induction l with
  | nil => intro a; simp
  | cons b t ih =>
    intro a
    simp only [List.foldl_cons, List.sum_cons, Nat.mod_add_mod]
    rw [ih (a + b), Nat.add_assoc]

/-- `calcChecksum` is the unsigned byte sum mod `2^32`. -/
theorem calcChecksum_spec (l : List Nat) : calcChecksum l = l.sum % mod32 := by
  have h := foldl_add_mod l 0
  simpa [calcChecksum] using h

/-- The checksum value fits in 32 bits. -/
theorem calcChecksum_lt (l : List Nat) : calcChecksum l < 4294967296 := by
  rw [calcChecksum_spec]
  exact Nat.mod_lt _ (by norm_num [mod32])

/-! ## Symbolic evaluation toolkit -/

/-- Reading an embedded contiguous sub-list out of a buffer. -/
theorem sliceBytes_extract (a b c : List Nat) (p n : Nat)
    (hp : a.length = p) (hn : b.length = n) :
    sliceBytes (a ++ b ++ c) p n = b := by
  subst hp; subst hn
  unfold sliceBytes
  rw [List.append_assoc, List.drop_left' rfl, List.take_left' rfl]

/-- Little-endian 32-bit round trip. -/
theorem le32_encodeLe32 (v : Nat) (h : v < 4294967296) : le32 (encodeLe32 v) = v := by
  simp only [le32, encodeLe32]
  omega

/-- `sampleBytes` produces two bytes per sample. -/
theorem sampleBytes_length (ss : List Int) : (sampleBytes ss).length = 2 * ss.length := by
  induction ss with
  | nil => rfl
  | cons s t ih =>
    simp only [sampleBytes, List.map_cons, List.flatten_cons, List.length_append,
      List.length_cons] at *
    simp [encodeInt16, encodeLe16, ih]
    omega

/-- Decoding the two little-endian bytes of an in-range sample recovers it. -/
theorem int16OfLe_encode (s : Int) (h1 : -32768 ≤ s) (h2 : s < 32768) :
    int16OfLe ((s % 65536).toNat % 256) ((s % 65536).toNat / 256 % 256) = s := by
  have hnn : 0 ≤ s % 65536 := Int.emod_nonneg s (by norm_num)
  have hv : ((s % 65536).toNat : Int) = s % 65536 := Int.toNat_of_nonneg hnn
  set v := (s % 65536).toNat with hvdef
  have hv65536 : v < 65536 := by omega
  have hrecon : v % 256 + 256 * (v / 256 % 256) = v := by omega
  unfold int16OfLe
  simp only [hrecon]
  split <;> omega

/-- Decoding the concatenated sample bytes recovers the sample list. -/
theorem decodeInt16s_sampleBytes (ss : List Int)
    (h : ∀ s ∈ ss, -32768 ≤ s ∧ s < 32768) :
    decodeInt16s (sampleBytes ss) = ss := by
  induction ss with
  | nil => rfl
  | cons s t ih =>
    have hs := h s (by simp)
    have ht := ih (fun x hx => h x (by simp [hx]))
    simp only [sampleBytes, List.map_cons, List.flatten_cons] at *
    show decodeInt16s ((s % 65536).toNat % 256 :: (s % 65536).toNat / 256 % 256
      :: (t.map encodeInt16).flatten) = s :: t
    simp only [decodeInt16s, ht]
    rw [int16OfLe_encode s hs.1 hs.2]

/-- One loop iteration over a correctly checksummed `fmt ` block decodes it
and advances the cursor by 20 bytes. -/
theorem parseLoop_step_fmt (pre payload rest : List Nat) (fuel : Nat) (st : LoopState)
    (hp : payload.length = 8) :
    parseLoop (pre ++ withChecksum (tagFmt ++ encodeLe32 8 ++ payload) ++ rest)
        (fuel + 1) pre.length st
      = parseLoop (pre ++ withChecksum (tagFmt ++ encodeLe32 8 ++ payload) ++ rest)
          fuel (pre.length + 20) { st with fmtB := some (decodeFmt payload) } := by
  set bb := tagFmt ++ encodeLe32 8 ++ payload with hbb
  set D := pre ++ withChecksum bb ++ rest with hD
  have hbbl : bb.length = 16 := by
    simp only [hbb, List.append_assoc, List.length_append, tagFmt, encodeLe32,
      List.length_cons, List.length_nil, hp]
  have hDlen : D.length = pre.length + 20 + rest.length := by
    simp only [hD, withChecksum, List.append_assoc, List.length_append, hbbl, encodeLe32,
      List.length_cons, List.length_nil]
    omega
  have htag : sliceBytes D pre.length 4 = tagFmt := by
    rw [show D = pre ++ tagFmt
        ++ (encodeLe32 8 ++ payload ++ encodeLe32 (calcChecksum bb) ++ rest) from by
      simp [hD, hbb, withChecksum, List.append_assoc]]
    exact sliceBytes_extract _ _ _ _ _ rfl rfl
  have hblen : sliceBytes D (pre.length + 4) 4 = encodeLe32 8 := by
    rw [show D = (pre ++ tagFmt) ++ encodeLe32 8
        ++ (payload ++ encodeLe32 (calcChecksum bb) ++ rest) from by
      simp [hD, hbb, withChecksum, List.append_assoc]]
    exact sliceBytes_extract _ _ _ _ _ (by simp [tagFmt]) rfl
  have hpay : sliceBytes D (pre.length + 8) 8 = payload := by
    rw [show D = (pre ++ tagFmt ++ encodeLe32 8) ++ payload
        ++ (encodeLe32 (calcChecksum bb) ++ rest) from by
      simp [hD, hbb, withChecksum, List.append_assoc]]
    refine sliceBytes_extract _ _ _ _ _ ?_ hp
    simp only [List.append_assoc, List.length_append, tagFmt, encodeLe32,
      List.length_cons, List.length_nil]
  have hstored : sliceBytes D (pre.length + 8 + 8) 4 = encodeLe32 (calcChecksum bb) := by
    rw [show D = (pre ++ bb) ++ encodeLe32 (calcChecksum bb) ++ rest from by
      simp [hD, withChecksum, List.append_assoc]]
    refine sliceBytes_extract _ _ _ _ _ ?_ rfl
    simp only [List.length_append, hbbl]
  have hspan : sliceBytes D pre.length (8 + 8) = bb := by
    rw [show D = pre ++ bb ++ (encodeLe32 (calcChecksum bb) ++ rest) from by
      simp [hD, withChecksum, List.append_assoc]]
    exact sliceBytes_extract _ _ _ _ _ rfl (by omega)
  have h1 : ¬(D.length - pre.length = 0) := by omega
  have h2 : ¬(D.length - pre.length < 8) := by omega
  have h3 : ¬(D.length - (pre.length + 8) < 8) := by omega
  have h4 : 4 ≤ D.length - (pre.length + 8 + 8) := by omega
  have h5 : ¬(D.length < pre.length + 8 + 8) := by omega
  simp only [parseLoop, verifyChecksum, htag, hblen, hpay, hstored, hspan,
    le32_encodeLe32 8 (by norm_num), le32_encodeLe32 _ (calcChecksum_lt bb),
    if_neg h1, if_neg h2, if_neg h3, if_pos h4, if_neg h5,
    show pre.length + 8 + 8 + 4 = pre.length + 20 from by omega,
    ne_eq, not_true_eq_false, if_false, ite_self, eq_self_iff_true, if_true]

/-- One loop iteration over a correctly checksummed `ecg ` block of even
declared length `L` decodes its `L/2` samples into the lead-I slot and
advances the cursor by `12 + L` bytes. -/
theorem parseLoop_step_ecg (pre payload rest : List Nat) (fuel : Nat) (st : LoopState)
    (L : Nat) (hL : payload.length = L) (heven : L % 2 = 0) (hlt : L < 4294967296) :
    parseLoop (pre ++ withChecksum (tagEcg ++ encodeLe32 L ++ payload) ++ rest)
        (fuel + 1) pre.length st
      = parseLoop (pre ++ withChecksum (tagEcg ++ encodeLe32 L ++ payload) ++ rest)
          fuel (pre.length + 12 + L)
          { st with leadI := some (decodeInt16s payload) } := by
  set bb := tagEcg ++ encodeLe32 L ++ payload with hbb
  set D := pre ++ withChecksum bb ++ rest with hD
  have hbbl : bb.length = 8 + L := by
    simp only [hbb, List.append_assoc, List.length_append, tagEcg, encodeLe32,
      List.length_cons, List.length_nil, hL]
    omega
  have hDlen : D.length = pre.length + 12 + L + rest.length := by
    simp only [hD, withChecksum, List.append_assoc, List.length_append, hbbl, encodeLe32,
      List.length_cons, List.length_nil]
    omega
  have htag : sliceBytes D pre.length 4 = tagEcg := by
    rw [show D = pre ++ tagEcg
        ++ (encodeLe32 L ++ payload ++ encodeLe32 (calcChecksum bb) ++ rest) from by
      simp [hD, hbb, withChecksum, List.append_assoc]]
    exact sliceBytes_extract _ _ _ _ _ rfl rfl
  have hblen : sliceBytes D (pre.length + 4) 4 = encodeLe32 L := by
    rw [show D = (pre ++ tagEcg) ++ encodeLe32 L
        ++ (payload ++ encodeLe32 (calcChecksum bb) ++ rest) from by
      simp [hD, hbb, withChecksum, List.append_assoc]]
    exact sliceBytes_extract _ _ _ _ _ (by simp [tagEcg]) rfl
  have hsamp : sliceBytes D (pre.length + 8) L = payload := by
    rw [show D = (pre ++ tagEcg ++ encodeLe32 L) ++ payload
        ++ (encodeLe32 (calcChecksum bb) ++ rest) from by
      simp [hD, hbb, withChecksum, List.append_assoc]]
    refine sliceBytes_extract _ _ _ _ _ ?_ hL
    simp only [List.append_assoc, List.length_append, tagEcg, encodeLe32,
      List.length_cons, List.length_nil]
  have hstored : sliceBytes D (pre.length + 8 + L) 4 = encodeLe32 (calcChecksum bb) := by
    rw [show D = (pre ++ bb) ++ encodeLe32 (calcChecksum bb) ++ rest from by
      simp [hD, withChecksum, List.append_assoc]]
    refine sliceBytes_extract _ _ _ _ _ ?_ rfl
    simp only [List.length_append, hbbl]
    omega
  have hspan : sliceBytes D pre.length (8 + L) = bb := by
    rw [show D = pre ++ bb ++ (encodeLe32 (calcChecksum bb) ++ rest) from by
      simp [hD, withChecksum, List.append_assoc]]
    exact sliceBytes_extract _ _ _ _ _ rfl (by omega)
  have h1 : ¬(D.length - pre.length = 0) := by omega
  have h2 : ¬(D.length - pre.length < 8) := by omega
  have h3 : ¬(D.length - (pre.length + 8) < L) := by omega
  have h4 : 4 ≤ D.length - (pre.length + 8 + L) := by omega
  have h5 : ¬(D.length < pre.length + 8 + L) := by omega
  have hnotfmt : ¬(tagEcg = tagFmt) := by decide
  have hnotinfo : ¬(tagEcg = tagInfo) := by decide
  have hleadEcg : leadFor tagEcg = some 0 := by decide
  simp only [parseLoop, verifyChecksum, htag, hblen, hstored, hspan,
    le32_encodeLe32 L hlt, le32_encodeLe32 _ (calcChecksum_lt bb),
    show 2 * (L / 2) = L from by omega, hsamp,
    if_neg h1, if_neg h2, if_neg hnotfmt, if_neg hnotinfo, hleadEcg,
    if_neg h3, if_pos h4, if_neg h5,
    show pre.length + 8 + L + 4 = pre.length + 12 + L from by omega,
    show setLead st 0 (decodeInt16s payload)
        = { st with leadI := some (decodeInt16s payload) } from rfl,
    ne_eq, not_true_eq_false, if_false, ite_self, eq_self_iff_true, if_true]

/-- At exact end of input the loop breaks and assembles the result. -/
theorem parseLoop_eof (data : List Nat) (fuel pos : Nat) (st : LoopState)
    (h : data.length - pos = 0) :
    parseLoop data (fuel + 1) pos st = finishParse st := by
  simp only [parseLoop, if_pos h]

/-- Decoding an encoded `fmt ` payload recovers the field values mod their
widths. -/
theorem decodeFmt_fmtPayload (format freq res flags reserved : Nat) :
    decodeFmt (fmtPayload format freq res flags reserved) =
      { format := format % 256, frequency := freq % 65536, resolution := res % 65536
        flags := flags % 256, reserved := reserved % 65536 } := by
  simp only [fmtPayload, encodeLe16, List.cons_append, List.nil_append, decodeFmt]
  congr 1 <;> omega

/-- `Parse` on a well-formed header + `fmt ` block + single `ecg ` block file:
full symbolic evaluation of the loop. -/
theorem Parse_buildFile (version format freq res flags reserved : Nat) (ss : List Int)
    (hr : ∀ s ∈ ss, -32768 ≤ s ∧ s < 32768) (hN : 2 * ss.length < 4294967296) :
    Parse (buildFile version format freq res flags reserved ss) =
      .ok { frequency := freq % 65536
            mainsFrequency := if (flags % 256).land 2 ≠ 0 then 60 else 50
            gain := mkGain (res % 65536)
            samples := { leadI := some ss, leadII := none, leadIII := none
                         aVR := none, aVL := none, aVF := none }
            info := none } := by
  have hPlen : (fmtPayload format freq res flags reserved).length = 8 := by
    simp [fmtPayload, encodeLe16]
  have hSlen : (sampleBytes ss).length = 2 * ss.length := sampleBytes_length ss
  simp only [buildFile, fmtChunk, ecgChunk]
  set pre1 := fileHeaderBytes version with hpre1
  set wcF := withChecksum
    (tagFmt ++ encodeLe32 8 ++ fmtPayload format freq res flags reserved) with hwcF
  set wcE := withChecksum
    (tagEcg ++ encodeLe32 (2 * ss.length) ++ sampleBytes ss) with hwcE
  have hpre1len : pre1.length = 12 := by
    simp [hpre1, fileHeaderBytes, AtcFileSignature, encodeLe32]
  have hwcFlen : wcF.length = 20 := by
    simp [hwcF, withChecksum, tagFmt, encodeLe32, hPlen]
  have hwcElen : wcE.length = 12 + 2 * ss.length := by
    simp [hwcE, withChecksum, tagEcg, encodeLe32, hSlen]
    omega
  have hlenD : (pre1 ++ wcF ++ wcE).length = 44 + 2 * ss.length := by
    simp [List.length_append, hpre1len, hwcFlen, hwcElen]
    omega
  have hsig : headerSignature (pre1 ++ wcF ++ wcE) = AtcFileSignature := by
    unfold headerSignature
    rw [if_neg (by omega)]
    rw [show pre1 ++ wcF ++ wcE
        = AtcFileSignature ++ (encodeLe32 version ++ (wcF ++ wcE)) from by
      simp [hpre1, fileHeaderBytes, List.append_assoc]]
    exact List.take_left' rfl
  simp only [Parse, hsig, ne_eq, not_true_eq_false, if_false]
  rw [show (12 : Nat) = pre1.length from hpre1len.symm]
  rw [show (pre1 ++ wcF ++ wcE).length + 1 = (44 + 2 * ss.length) + 1 from by
    rw [hlenD]]
  rw [hwcF, parseLoop_step_fmt pre1 _ wcE _ _ hPlen, ← hwcF]
  rw [show pre1.length + 20 = (pre1 ++ wcF).length from by
    simp [List.length_append, hpre1len, hwcFlen]]
  rw [show (44 + 2 * ss.length) = (43 + 2 * ss.length) + 1 from by omega]
  rw [show pre1 ++ wcF ++ wcE = (pre1 ++ wcF) ++ wcE ++ ([] : List Nat) from by
    simp [List.append_assoc]]
  rw [hwcE, parseLoop_step_ecg (pre1 ++ wcF) _ ([] : List Nat) _ _
    (2 * ss.length) hSlen (by omega) hN, ← hwcE]
  rw [show (43 + 2 * ss.length) = (42 + 2 * ss.length) + 1 from by omega]
  rw [parseLoop_eof _ _ _ _ (by
    simp [List.length_append, hpre1len, hwcFlen, hwcElen]
    omega)]
  simp only [finishParse, decodeFmt_fmtPayload, decodeInt16s_sampleBytes ss hr]

/-- Reads at offsets ≥ 12 agree on buffers agreeing beyond offset 12. -/
theorem sliceBytes_congr (d1 d2 : List Nat) (h : d1.drop 12 = d2.drop 12)
    (p n : Nat) (hp : 12 ≤ p) : sliceBytes d1 p n = sliceBytes d2 p n := by
  unfold sliceBytes
  have e1 : d1.drop p = (d1.drop 12).drop (p - 12) := by
    rw [List.drop_drop]
    congr 1
    omega
  have e2 : d2.drop p = (d2.drop 12).drop (p - 12) := by
    rw [List.drop_drop]
    congr 1
    omega
  rw [e1, e2, h]

/-- The checksum validator only reads length and offsets ≥ 12. -/
theorem verifyChecksum_congr (d1 d2 : List Nat) (hlen : d1.length = d2.length)
    (h : d1.drop 12 = d2.drop 12) (bs bl p : Nat) (hbs : 12 ≤ bs) (hp : 12 ≤ p) :
    verifyChecksum d1 bs bl p = verifyChecksum d2 bs bl p := by
  simp only [verifyChecksum]
  rw [hlen, sliceBytes_congr d1 d2 h p 4 hp, sliceBytes_congr d1 d2 h bs (8 + bl) hbs]

/-- A successful checksum read leaves the cursor at `p + 4` or at the end. -/
theorem verifyChecksum_ok_pos (d : List Nat) (bs bl p q : Nat)
    (h : verifyChecksum d bs bl p = .ok q) : q = p + 4 ∨ q = d.length := by
  simp only [verifyChecksum] at h
  repeat' split at h
  all_goals (try injection h with h)
  all_goals (try injection h)
  all_goals omega

/-- A successful unknown-tag skip never moves the cursor backwards. -/
theorem skipUnknown_some (dLen p disc q : Nat)
    (h : skipUnknown dLen p disc = some q) : p ≤ q := by
  unfold skipUnknown at h
  split at h
  · exact absurd h (by simp)
  · injection h with h
    omega

/-- The block loop never reads bytes 8..11: its result is determined by the
buffer length and the bytes from offset 12 on, for any cursor ≥ 12. -/
theorem parseLoop_congr (d1 d2 : List Nat) (hlen : d1.length = d2.length)
    (hdrop : d1.drop 12 = d2.drop 12) (h12 : 12 ≤ d1.length) :
    ∀ fuel pos st, 12 ≤ pos → parseLoop d1 fuel pos st = parseLoop d2 fuel pos st := by
  intro fuel
  induction fuel with
  | zero => intro pos st _; rfl
  | succ fuel ih =>
    intro pos st hpos
    simp only [parseLoop]
    rw [hlen, sliceBytes_congr d1 d2 hdrop pos 4 hpos,
      sliceBytes_congr d1 d2 hdrop (pos + 4) 4 (by omega),
      sliceBytes_congr d1 d2 hdrop (pos + 8) 8 (by omega),
      sliceBytes_congr d1 d2 hdrop (pos + 8) 264 (by omega),
      sliceBytes_congr d1 d2 hdrop (pos + 8)
        (2 * (le32 (sliceBytes d2 (pos + 4) 4) / 2)) (by omega),
      verifyChecksum_congr d1 d2 hlen hdrop pos _ (pos + 8 + 8) hpos (by omega),
      verifyChecksum_congr d1 d2 hlen hdrop pos _ (pos + 8 + 264) hpos (by omega),
      verifyChecksum_congr d1 d2 hlen hdrop pos _
        (pos + 8 + 2 * (le32 (sliceBytes d2 (pos + 4) 4) / 2)) hpos (by omega)]
    repeat' split
    all_goals try rfl
    all_goals apply ih
    all_goals rename_i pos' heq
    · rcases verifyChecksum_ok_pos _ _ _ _ _ heq with h | h <;> omega
    · rcases verifyChecksum_ok_pos _ _ _ _ _ heq with h | h <;> omega
    · rcases verifyChecksum_ok_pos _ _ _ _ _ heq with h | h <;> omega
    · have := skipUnknown_some _ _ _ _ heq
      omega

/-- **C1 (counterexample)** The claim says every block the validator accepts
has its expected checksum equal to the *signed*-byte sum of the span.  On
this block (payload byte `0x80 ≥ 0x80`) the validator accepts the unsigned
sum `464`, while the signed-byte sum of the same span is `208`. -/
theorem verifyChecksum_unsigned_cex :
    verifyChecksum c1Block 0 1 9 = .ok 13 ∧
    calcChecksum (sliceBytes c1Block 0 9) = 464 ∧
    specCalcChecksum (sliceBytes c1Block 0 9) = 208 ∧
    (128 : Nat) ∈ sliceBytes c1Block 0 9 := by decide

/-- **C1 (amended)** The expected checksum computed by `calcChecksum` is the
mod-`2^32` sum of the *unsigned* byte values (`int32(b)` zero-extends a Go
`byte`); the spec's signed-byte accumulation disagrees with it on a payload
containing a byte `≥ 0x80`. -/
theorem calcChecksum_eq_unsigned_sum :
    (∀ data : List Nat, calcChecksum data = data.sum % mod32) ∧
    specCalcChecksum [128] ≠ calcChecksum [128] := by
  exact ⟨calcChecksum_spec, by decide⟩

/-- **C2** A file that is only the 12-byte header: the block loop terminates
at end-of-input without decoding a `fmt ` block, and `Parse` then
dereferences the nil `fmtBlock` pointer — a run-time panic, not the
`FormatError` the claim requires. -/
theorem parse_missing_fmt_panics :
    Parse headerOnlyFile = .panic .nilDeref := by decide

/-- **C3** Every buffer that does not begin with the 8-byte magic signature —
including every buffer shorter than the 12-byte header, whose ignored
`binary.Read` failure leaves the header zero-valued — makes `Parse` fail
with the signature `FormatError`, before any block is read. -/
theorem parse_bad_signature_errors (data : List Nat)
    (h : data.take 8 ≠ AtcFileSignature ∨ data.length < 12) :
    Parse data = .error .wrongSignature := by
  unfold Parse headerSignature
  by_cases hl : data.length < 12
  · simp only [if_pos hl]
    rw [if_pos]
    decide
  · simp only [if_neg hl]
    rw [if_pos]
    simp only [ne_eq]
    exact h.resolve_right hl

/-- Witness for C3 at the empty buffer. -/
theorem parse_bad_signature_errors_witness :
    Parse [] = .error .wrongSignature :=
  parse_bad_signature_errors [] (Or.inr (by decide))

/-- **C4** A well-formed file (header, one correctly checksummed `fmt ` block,
one correctly checksummed `ecg ` block of `N` little-endian signed 16-bit
samples) parses into a Document whose `samples.leadI` is exactly the sample
list (hence has length `N`) and whose other five lead fields are absent. -/
theorem parse_wellformed_fmt_ecg (version format freq res flags reserved : Nat)
    (ss : List Int)
    (hr : ∀ s ∈ ss, -32768 ≤ s ∧ s < 32768) (hN : 2 * ss.length < 4294967296) :
    ∃ d, Parse (buildFile version format freq res flags reserved ss) = .ok d ∧
      d.samples.leadI = some ss ∧
      (∀ v, d.samples.leadI = some v → v.length = ss.length) ∧
      d.samples.leadII = none ∧ d.samples.leadIII = none ∧
      d.samples.aVR = none ∧ d.samples.aVL = none ∧ d.samples.aVF = none := by
  refine ⟨_, Parse_buildFile version format freq res flags reserved ss hr hN,
    rfl, ?_, rfl, rfl, rfl, rfl, rfl⟩
  intro v hv
  have h : some ss = some v := hv
  injection h with h
  rw [← h]

/-- Witness for C4 on a concrete two-sample file. -/
theorem parse_wellformed_fmt_ecg_witness :
    ∃ d, Parse (buildFile 0 0 300 500 0 0 [5, -3]) = .ok d ∧
      d.samples.leadI = some [5, -3] ∧
      (∀ v, d.samples.leadI = some v → v.length = [(5 : Int), -3].length) ∧
      d.samples.leadII = none ∧ d.samples.leadIII = none ∧
      d.samples.aVR = none ∧ d.samples.aVL = none ∧ d.samples.aVF = none :=
  parse_wellformed_fmt_ecg 0 0 300 500 0 0 [5, -3] (by decide) (by decide)

/-- **C5** For every flags byte value (all 256), the decoded Document's
`mainsFrequency` is `60` exactly when bit 1 (value 2) of the flags byte is
set, and `50` otherwise. -/
theorem parse_mains_flag_bit (flags : Nat) (hf : flags < 256) :
    ∃ d, Parse (buildFile 0 0 300 500 flags 0 []) = .ok d ∧
      (d.mainsFrequency = 60 ↔ flags.testBit 1) ∧
      (d.mainsFrequency = 50 ↔ ¬ flags.testBit 1) := by
  have key : ∀ f : Nat, f < 256 →
      (((if (f % 256).land 2 ≠ 0 then (60 : Nat) else 50) = 60) ↔ f.testBit 1) ∧
      (((if (f % 256).land 2 ≠ 0 then (60 : Nat) else 50) = 50) ↔ ¬ f.testBit 1) := by
    set_option maxRecDepth 4000 in decide
  exact ⟨_, Parse_buildFile 0 0 300 500 flags 0 [] (by simp) (by norm_num),
    (key flags hf).1, (key flags hf).2⟩

/-- Witness for C5 at flags byte 2 (bit 1 set). -/
theorem parse_mains_flag_bit_witness :
    ∃ d, Parse (buildFile 0 0 300 500 2 0 []) = .ok d ∧
      (d.mainsFrequency = 60 ↔ Nat.testBit 2 1) ∧
      (d.mainsFrequency = 50 ↔ ¬ Nat.testBit 2 1) :=
  parse_mains_flag_bit 2 (by decide)

/-- **C10** A `fmt ` block with resolution 0 does not make `Parse` fail: the
division `1e6 / resolution` is unguarded, IEEE division of the positive
constant by zero yields `+Inf`, and the Document is returned without error. -/
theorem parse_resolution_zero_ok (version format freq flags reserved : Nat)
    (ss : List Int)
    (hr : ∀ s ∈ ss, -32768 ≤ s ∧ s < 32768) (hN : 2 * ss.length < 4294967296) :
    ∃ d, Parse (buildFile version format freq 0 flags reserved ss) = .ok d ∧
      d.gain = .inf := by
  exact ⟨_, Parse_buildFile version format freq 0 flags reserved ss hr hN, rfl⟩

/-- Witness for C10 on a concrete one-sample file with resolution 0. -/
theorem parse_resolution_zero_ok_witness :
    ∃ d, Parse (buildFile 0 0 300 0 0 0 [7]) = .ok d ∧ d.gain = .inf :=
  parse_resolution_zero_ok 0 0 300 0 0 [7] (by decide) (by decide)

/-- **C9** `Parse` is independent of the 4-byte file-version field: two
buffers of equal length that agree on bytes 0..7 and on every byte from
offset 12 on parse to identical results. -/
theorem parse_ignores_version (d1 d2 : List Nat) (hlen : d1.length = d2.length)
    (htake : d1.take 8 = d2.take 8) (hdrop : d1.drop 12 = d2.drop 12) :
    Parse d1 = Parse d2 := by
  unfold Parse headerSignature
  rw [hlen, htake]
  by_cases h : (if d2.length < 12 then List.replicate 8 0 else d2.take 8) ≠ AtcFileSignature
  · rw [if_pos h, if_pos h]
  · rw [if_neg h, if_neg h]
    have hsig : (if d2.length < 12 then List.replicate 8 0 else d2.take 8)
        = AtcFileSignature := not_ne_iff.mp h
    have h12 : ¬ (d2.length < 12) := by
      intro hc
      rw [if_pos hc] at hsig
      exact absurd hsig (by decide)
    exact parseLoop_congr d1 d2 hlen hdrop (by omega) (d2.length + 1) 12 {} (le_refl 12)

/-- Witness for C9: two header-only files differing only in the version
bytes parse identically. -/
theorem parse_ignores_version_witness :
    Parse (fileHeaderBytes 0) = Parse (fileHeaderBytes 77) :=
  parse_ignores_version (fileHeaderBytes 0) (fileHeaderBytes 77)
    (by decide) (by decide) (by decide)

/-- **C6 (counterexample)** `oddEcg2File` contains an `ecg2` block whose
declared length is the odd value 3 (its block header is shown by the second
conjunct), yet `Parse` accepts the file, decoding `3/2 = 1` sample. -/
theorem parse_odd_ecg2_cex :
    Parse oddEcg2File =
      .ok { frequency := 300, mainsFrequency := 50, gain := mkGain 500
            samples := { leadI := none, leadII := some [156], leadIII := none
                         aVR := none, aVL := none, aVF := none }
            info := none } ∧
    sliceBytes oddEcg2File 32 8 = [101, 99, 103, 50, 3, 0, 0, 0] := ⟨rfl, rfl⟩

/-- **C6 (amended)** An odd declared sample-block length is not rejected:
the block decodes `length / 2` (truncated) samples, the trailing checksum is
then read starting one byte before the end of the declared span, and a file
arranged so that this misaligned comparison matches is accepted — here with
one decoded sample for declared length 3. -/
theorem parse_odd_ecg2_truncates :
    ∃ d, Parse oddEcg2File = .ok d ∧
      d.samples.leadII = some [156] ∧
      le32 (sliceBytes oddEcg2File 36 4) = 3 ∧
      (3 : Nat) % 2 = 1 ∧
      ∀ v, d.samples.leadII = some v → v.length = 3 / 2 := by
  refine ⟨{ frequency := 300, mainsFrequency := 50, gain := mkGain 500
            samples := { leadI := none, leadII := some [156], leadIII := none
                         aVR := none, aVL := none, aVF := none }
            info := none }, rfl, rfl, rfl, rfl, ?_⟩
  intro v hv
  cases hv
  rfl

/-- **C7 (counterexample)** `shortSkipFile` ends in an unknown-tag block
declaring length 100 with only 2 bytes left in the buffer: the claim requires
a `FormatError` for this short read, but the plain `reader.Read` used by the
skip arm reports no error on a short read, so `Parse` accepts the file. -/
theorem parse_short_unknown_skip_cex :
    Parse shortSkipFile =
      .ok { frequency := 300, mainsFrequency := 50, gain := mkGain 500
            samples := { leadI := none, leadII := none, leadIII := none
                         aVR := none, aVL := none, aVF := none }
            info := none } ∧
    le32 (sliceBytes shortSkipFile 36 4) = 100 ∧
    shortSkipFile.length = 42 := ⟨rfl, rfl, rfl⟩

/-- **C7 (amended)** Unknown-tag handling: when at least `(length+4) mod 2^32`
bytes follow the 8-byte block header, one loop iteration skips exactly that
many bytes without interpreting them and continues; in general the skip
errors only when *zero* bytes remain at the cursor — when any byte remains it
succeeds, advancing by `min(length+4, remaining)`, so a short read is not an
error. -/
theorem unknown_block_skip (pre tag lenb body : List Nat) (fuel : Nat) (st : LoopState)
    (htag4 : tag.length = 4) (hlenb : lenb.length = 4)
    (hfmt : tag ≠ tagFmt) (hinfo : tag ≠ tagInfo) (hlead : leadFor tag = none)
    (hbody : (le32 lenb + 4) % mod32 ≤ body.length) (hbody0 : 0 < body.length) :
    (parseLoop (pre ++ tag ++ lenb ++ body) (fuel + 1) pre.length st
      = parseLoop (pre ++ tag ++ lenb ++ body) fuel
          (pre.length + 8 + (le32 lenb + 4) % mod32) st) ∧
    (∀ dLen p disc : Nat, p < dLen →
      skipUnknown dLen p disc = some (min (p + disc) dLen)) ∧
    (∀ dLen p disc : Nat, dLen ≤ p → skipUnknown dLen p disc = none) := by
  refine ⟨?_, ?_, ?_⟩
  · set D := pre ++ tag ++ lenb ++ body with hD
    have hDlen : D.length = pre.length + 8 + body.length := by
      simp [hD, List.length_append, htag4, hlenb]
      omega
    have htagS : sliceBytes D pre.length 4 = tag := by
      rw [show D = pre ++ tag ++ (lenb ++ body) from by simp [hD, List.append_assoc]]
      exact sliceBytes_extract _ _ _ _ _ rfl htag4
    have hlenS : sliceBytes D (pre.length + 4) 4 = lenb := by
      rw [show D = (pre ++ tag) ++ lenb ++ body from by simp [hD, List.append_assoc]]
      refine sliceBytes_extract _ _ _ _ _ ?_ hlenb
      simp [List.length_append, htag4]
    have h1 : ¬(D.length - pre.length = 0) := by omega
    have h2 : ¬(D.length - pre.length < 8) := by omega
    have h6 : ¬(D.length ≤ pre.length + 8) := by omega
    have hmin : min (pre.length + 8 + (le32 lenb + 4) % mod32) D.length
        = pre.length + 8 + (le32 lenb + 4) % mod32 := by omega
    simp only [parseLoop, htagS, hlenS, skipUnknown, ChecksumLength,
      if_neg h1, if_neg h2, if_neg hfmt, if_neg hinfo, hlead, if_neg h6, hmin]
  · intro dLen p disc h
    unfold skipUnknown
    rw [if_neg (by omega)]
  · intro dLen p disc h
    unfold skipUnknown
    rw [if_pos h]

/-- Witness for C7's amended theorem: a 14-byte unknown block (`"xxxx"`,
declared length 2, 6 trailing bytes) skipped exactly, plus the two
`skipUnknown` facts at concrete cursors. -/
theorem unknown_block_skip_witness :
    (parseLoop ([] ++ [120, 120, 120, 120] ++ [2, 0, 0, 0] ++ [9, 9, 9, 9, 9, 9])
        (0 + 1) (List.length ([] : List Nat)) {}
      = parseLoop ([] ++ [120, 120, 120, 120] ++ [2, 0, 0, 0] ++ [9, 9, 9, 9, 9, 9])
          0 (List.length ([] : List Nat) + 8 + (le32 [2, 0, 0, 0] + 4) % mod32) {}) ∧
    skipUnknown 10 8 100 = some (min (8 + 100) 10) ∧
    skipUnknown 8 8 100 = none :=
  ⟨(unknown_block_skip [] [120, 120, 120, 120] [2, 0, 0, 0] [9, 9, 9, 9, 9, 9] 0 {}
      rfl rfl (by decide) (by decide) (by decide) (by decide) (by decide)).1,
   (unknown_block_skip [] [120, 120, 120, 120] [2, 0, 0, 0] [9, 9, 9, 9, 9, 9] 0 {}
      rfl rfl (by decide) (by decide) (by decide) (by decide) (by decide)).2.1
      10 8 100 (by decide),
   (unknown_block_skip [] [120, 120, 120, 120] [2, 0, 0, 0] [9, 9, 9, 9, 9, 9] 0 {}
      rfl rfl (by decide) (by decide) (by decide) (by decide) (by decide)).2.2
      8 8 100 (by decide)⟩

/-- **C8 (counterexample)** The document decoded from `fmtOnlyFile` has no
`leadI` samples and no info block, yet the serialized output still contains
the keys `leadI` and `Info`, both mapped to `null` — the claim requires them
to be omitted. -/
theorem convert_emits_null_leadI_cex :
    Convert fmtOnlyFile =
      some ([("frequency", false), ("mainsFrequency", false), ("gain", false),
             ("samples", false), ("Info", true)],
            [("leadI", true)]) := by decide

/-- An `omitempty` lead's key is emitted iff the lead is a non-empty slice. -/
theorem optLeadField_mem_self (name : String) (o : Option (List Int)) :
    ((name, false) ∈ optLeadField name o) ↔ ∃ v, o = some v ∧ v ≠ [] := by
  rcases o with _ | (_ | ⟨a, t⟩) <;> simp [optLeadField]

/-- An `omitempty` lead never emits a foreign key. -/
theorem optLeadField_mem_other (name nm : String) (o : Option (List Int)) (b : Bool)
    (h : ¬ nm = name) : ¬ ((nm, b) ∈ optLeadField name o) := by
  rcases o with _ | (_ | ⟨a, t⟩) <;> simp [optLeadField, h]

/-- **C8 (amended)** Key presence matches field presence only for the five
`omitempty` leads (`leadII` … `aVF`) and only up to emptiness: each such key
is emitted exactly when the lead is present *and* non-empty (`omitempty`
omits a nil and a non-nil empty slice alike); `leadI` and `Info` are always
emitted, with value `null` exactly when the field is absent, and the scalar
top-level keys are always emitted. -/
theorem json_field_presence (d : EcgData) :
    (("leadI", d.samples.leadI.isNone) ∈ ecgSamplesFields d.samples) ∧
    ((("leadII", false) ∈ ecgSamplesFields d.samples) ↔
      ∃ v, d.samples.leadII = some v ∧ v ≠ []) ∧
    ((("leadIII", false) ∈ ecgSamplesFields d.samples) ↔
      ∃ v, d.samples.leadIII = some v ∧ v ≠ []) ∧
    ((("aVR", false) ∈ ecgSamplesFields d.samples) ↔
      ∃ v, d.samples.aVR = some v ∧ v ≠ []) ∧
    ((("aVL", false) ∈ ecgSamplesFields d.samples) ↔
      ∃ v, d.samples.aVL = some v ∧ v ≠ []) ∧
    ((("aVF", false) ∈ ecgSamplesFields d.samples) ↔
      ∃ v, d.samples.aVF = some v ∧ v ≠ []) ∧
    (("Info", d.info.isNone) ∈ ecgDataFields d) ∧
    (("frequency", false) ∈ ecgDataFields d) ∧
    (("samples", false) ∈ ecgDataFields d) := by
  obtain ⟨freq, mains, gain, ⟨l1, l2, l3, l4, l5, l6⟩, info⟩ := d
  refine ⟨?_, ?_, ?_, ?_, ?_, ?_, ?_, ?_, ?_⟩ <;>
    simp [ecgSamplesFields, ecgDataFields, List.mem_append,
      optLeadField_mem_self, optLeadField_mem_other]

end Atc2Json
